import Mathlib

/-!
Verification development for the two-workshop simulation (`simulation.py`).

The simulation core is shallowly embedded: simulated time, speed and product
positions are rationals (the Python source uses floats for pure arithmetic,
no rounding-sensitive operations occur), drawn durations are naturals, and
`random.randint` is modelled by an explicit entropy stream `rng : Nat → Nat`
threaded through the state together with a consumption index, with
`randint lo hi` reading one stream value and mapping it into `[lo, hi]`.
-/

namespace TwoWorkshop

/-! ### Data model and operations, embedded from the source -/

/-- Lifecycle states of a product, one constructor per Python state string. -/
inductive PState where
  | waiting_ws1
  | producing_ws1
  | produced
  | transferring
  | in_queue_ws2
  | processing_ws2
  | finished
  deriving DecidableEq, Repr

/-- PROD_MIN, PROD_MAX = 65, 85 -/
def PROD_MIN : Nat := 65

def PROD_MAX : Nat := 85

/-- SETUP_MIN, SETUP_MAX = 5, 15 -/
def SETUP_MIN : Nat := 5

def SETUP_MAX : Nat := 15

/-- TRANSFER_MIN, TRANSFER_MAX = 5, 11 -/
def TRANSFER_MIN : Nat := 5

def TRANSFER_MAX : Nat := 11

/-- PROC_MIN, PROC_MAX = 30, 45 -/
def PROC_MIN : Nat := 30

def PROC_MAX : Nat := 45

/-- Source `WS1_RECT = Rect(SECTION4.x + 60, SECTION4.y + 80, 140, 100)` with
`SECTION4 = Rect(WIDTH // 2, 120, ...)`, `WIDTH = 1200`; pygame center x. -/
def WS1_CENTER_X : ℚ := (1200 / 2 + 60) + 140 / 2

/-- center y of WS1_RECT. -/
def WS1_CENTER_Y : ℚ := (120 + 80) + 100 / 2

/-- Source `WS2_RECT = Rect(SECTION4.right - 220, SECTION4.y + 80, 160, 110)`, center x. -/
def WS2_CENTER_X : ℚ := (1200 - 220) + 160 / 2

/-- center y of WS2_RECT. -/
def WS2_CENTER_Y : ℚ := (120 + 80) + 110 / 2

/-- One unit moving through the line; mirrors the Python `Product` class
(`target_x`/`target_y` are set dynamically when transfer starts, hence
optional here; optional fields are `None` until assigned). -/
structure Product where
  pid : Nat
  prod_time : Nat
  setup_time : Nat
  transfer_time : Nat
  proc_time : Nat
  t_prod_start : Option ℚ
  t_prod_done : Option ℚ
  t_transfer_done : Option ℚ
  t_proc_start : Option ℚ
  t_proc_done : Option ℚ
  state : PState
  x : Option ℚ
  y : Option ℚ
  target_x : Option ℚ
  target_y : Option ℚ
  deriving DecidableEq, Repr

/-- The whole mutable state of the Python `Simulation` object, plus the
entropy stream standing for the global `random` module. -/
structure Sim where
  now : ℚ
  speed : ℚ
  running : Bool
  paused : Bool
  products : List Product
  queue_ws2 : List Nat
  finished_ids : List Nat
  ws1_busy_until : ℚ
  ws2_busy_until : ℚ
  ws2_current_id : Option Nat
  next_pid : Nat
  assigned_list : List (Nat × Nat × Nat × Nat)
  rng : Nat → Nat
  rngIdx : Nat

/-- Python `random.randint(lo, hi)` applied to one entropy value: an integer in the
inclusive range `[lo, hi]`. -/
def randInt (lo hi v : Nat) : Nat := lo + v % (hi + 1 - lo)

/-- Method `self._rand(lo, hi)`: draw one value, consuming one entropy-stream slot. -/
def Sim.rand (s : Sim) (lo hi : Nat) : Nat × Sim :=
  (randInt lo hi (s.rng s.rngIdx), { s with rngIdx := s.rngIdx + 1 })

/-- Method `Simulation._schedule_next_ws1`. -/
def scheduleNextWs1 (s : Sim) : Sim :=
  let pr := s.rand PROD_MIN PROD_MAX
  let st := pr.2.rand SETUP_MIN SETUP_MAX
  let tr := st.2.rand TRANSFER_MIN TRANSFER_MAX
  let pc := tr.2.rand PROC_MIN PROC_MAX
  let s4 := pc.2
  let p : Product :=
    { pid := s4.next_pid, prod_time := pr.1, setup_time := st.1,
      transfer_time := tr.1, proc_time := pc.1,
      t_prod_start := some s4.now, t_prod_done := none, t_transfer_done := none,
      t_proc_start := none, t_proc_done := none,
      state := .producing_ws1, x := some WS1_CENTER_X, y := some WS1_CENTER_Y,
      target_x := none, target_y := none }
  { s4 with
      products := s4.products ++ [p],
      ws1_busy_until := s4.now + (pr.1 : ℚ) + (st.1 : ℚ),
      assigned_list := s4.assigned_list ++ [(p.pid, pr.1, tr.1, pc.1)],
      next_pid := s4.next_pid + 1 }

/-- First half of the per-product loop body in `Simulation.update`: the
`producing_ws1` completion check. -/
def produceAdvance (now : ℚ) (p : Product) : Product :=
  if p.state = .producing_ws1 ∧ p.t_prod_start.getD 0 + (p.prod_time : ℚ) ≤ now ∧
      p.t_prod_done = none then
    { p with t_prod_done := some (p.t_prod_start.getD 0 + (p.prod_time : ℚ)),
             state := .produced }
  else p

/-- Second half of the per-product loop body: the `produced`/`transferring`
branches; the boolean is true when the product arrives and its pid is
appended to the WS2 queue. -/
def transferAdvance (p : Product) : Product × Bool :=
  if p.state = .produced ∧ p.t_transfer_done = none then
    ({ p with state := .transferring,
              target_x := some WS2_CENTER_X, target_y := some WS2_CENTER_Y }, false)
  else if p.state = .transferring then
    if |(p.x.getD 0 + (p.target_x.getD 0 - p.x.getD 0) * (5 / 100)) - p.target_x.getD 0| < 2 ∧
        |(p.y.getD 0 + (p.target_y.getD 0 - p.y.getD 0) * (5 / 100)) - p.target_y.getD 0| < 2 then
      ({ p with x := some (p.x.getD 0 + (p.target_x.getD 0 - p.x.getD 0) * (5 / 100)),
                y := some (p.y.getD 0 + (p.target_y.getD 0 - p.y.getD 0) * (5 / 100)),
                state := .in_queue_ws2 }, true)
    else
      ({ p with x := some (p.x.getD 0 + (p.target_x.getD 0 - p.x.getD 0) * (5 / 100)),
                y := some (p.y.getD 0 + (p.target_y.getD 0 - p.y.getD 0) * (5 / 100)) }, false)
  else (p, false)

/-- Full per-product loop body of the production/transfer loop. -/
def stepProduct (now : ℚ) (p : Product) : Product × Bool :=
  transferAdvance (produceAdvance now p)

/-- The pids appended to the WS2 queue during one pass of the loop,
in list (= arrival) order. -/
def enqList (now : ℚ) (l : List Product) : List Nat :=
  l.filterMap fun p => if (stepProduct now p).2 then some (stepProduct now p).1.pid else none

/-- The `for p in self.products` production-and-transfer loop of
`Simulation.update` (each iteration touches only its own product and
appends to the queue, so it is a map plus the collected appends). -/
def prodTransferStep (s : Sim) : Sim :=
  { s with
      products := s.products.map fun p => (stepProduct s.now p).1,
      queue_ws2 := s.queue_ws2 ++ enqList s.now s.products }

/-- Condition `last.state in ("produced", "in_queue_ws2", "processing_ws2", "finished")`. -/
def leftProducing : PState → Bool
  | .produced | .in_queue_ws2 | .processing_ws2 | .finished => true
  | _ => false

/-- The `1e-6` nudge added to `ws1_busy_until` after scheduling. -/
def EPS : ℚ := 1 / 1000000

/-- The `if self.now >= self.ws1_busy_until: ...` scheduling block of
`Simulation.update`. -/
def ws1SchedStep (s : Sim) : Sim :=
  if s.ws1_busy_until ≤ s.now then
    match s.products.getLast? with
    | none =>
        let s2 := scheduleNextWs1 s
        { s2 with ws1_busy_until := s2.ws1_busy_until + EPS }
    | some last =>
        if leftProducing last.state then
          let s2 := scheduleNextWs1 s
          { s2 with ws1_busy_until := s2.ws1_busy_until + EPS }
        else s
  else s

/-- Lookup `next(pp for pp in self.products if pp.pid == pid)`, as an optional
first match (the Python generator raises `StopIteration` when no product
matches; that case is shown unreachable on reachable states). -/
def findByPid (l : List Product) (pid : Nat) : Option Product :=
  l.find? fun p => p.pid == pid

/-- In-place mutation of the first product with the given pid. -/
def setFirst (pid : Nat) (f : Product → Product) : List Product → List Product
  | [] => []
  | p :: ps => if p.pid = pid then f p :: ps else p :: setFirst pid f ps

/-- The mutations `p.t_proc_done = self.ws2_busy_until; p.state = "finished"`
performed by the completion check. -/
def finishProduct (t : ℚ) (p : Product) : Product :=
  { p with t_proc_done := some t, state := .finished }

/-- The mutations `p.t_proc_start = self.now; p.state = "processing_ws2"`
performed by `_try_start_ws2`. -/
def startProcProduct (t : ℚ) (p : Product) : Product :=
  { p with t_proc_start := some t, state := .processing_ws2 }

/-- The `if self.ws2_current_id is not None: ...` WS2 completion block of
`Simulation.update`. -/
def ws2CompletionStep (s : Sim) : Sim :=
  match s.ws2_current_id with
  | none => s
  | some cid =>
    match findByPid s.products cid with
    | none => s
    | some _ =>
      if s.ws2_busy_until ≤ s.now then
        { s with
            products := setFirst cid (finishProduct s.ws2_busy_until) s.products,
            finished_ids := s.finished_ids ++ [cid],
            ws2_current_id := none }
      else s

/-- Method `Simulation._try_start_ws2`. -/
def tryStartWs2 (s : Sim) : Sim :=
  match s.ws2_current_id with
  | some _ => s
  | none =>
    match s.queue_ws2 with
    | [] => s
    | pid :: rest =>
      match findByPid s.products pid with
      | none => { s with queue_ws2 := rest }
      | some p =>
        { s with
            queue_ws2 := rest,
            products := setFirst pid (startProcProduct s.now) s.products,
            ws2_current_id := some pid,
            ws2_busy_until := s.now + (p.proc_time : ℚ) }

/-- Statement `self.now += dt_real_seconds * self.speed`. -/
def advanceTime (s : Sim) (dt : ℚ) : Sim := { s with now := s.now + dt * s.speed }

/-- Method `Simulation.update(dt_real_seconds)`. -/
def Sim.update (s : Sim) (dt : ℚ) : Sim :=
  if ¬s.running ∨ s.paused then s
  else tryStartWs2 (ws2CompletionStep (ws1SchedStep (prodTransferStep (advanceTime s dt))))

/-- Start button handler: `sim.running = True; sim.paused = False`. -/
def Sim.start (s : Sim) : Sim := { s with running := true, paused := false }

/-- Pause button handler: `sim.paused = True`. -/
def Sim.pause (s : Sim) : Sim := { s with paused := true }

/-- Space-bar handler: `sim.running = True; sim.paused = not sim.paused`. -/
def Sim.resume (s : Sim) : Sim := { s with running := true, paused := !s.paused }

/-- Speed button/key handler: `sim.speed = v` (no validation in the source). -/
def Sim.setSpeed (s : Sim) (v : ℚ) : Sim := { s with speed := v }

/-- The field assignments of `Simulation.reset` before the first schedule. -/
def freshSim (rng : Nat → Nat) (idx : Nat) : Sim :=
  { now := 0, speed := 1, running := false, paused := true,
    products := [], queue_ws2 := [], finished_ids := [],
    ws1_busy_until := 0, ws2_busy_until := 0, ws2_current_id := none,
    next_pid := 1, assigned_list := [], rng := rng, rngIdx := idx }

/-- Method `Simulation.reset` (also `Simulation.__init__`) started from a given
entropy-stream position. -/
def initSim (rng : Nat → Nat) (idx : Nat) : Sim := scheduleNextWs1 (freshSim rng idx)

/-- Stop button / `S` key: `sim.reset()`; the entropy stream continues
where it stood. -/
def Sim.reset (s : Sim) : Sim := initSim s.rng s.rngIdx

/-- States reachable from construction/reset by the tick and the control
operations the UI layer can invoke. -/
inductive Reachable : Sim → Prop where
  | init (rng : Nat → Nat) (idx : Nat) : Reachable (initSim rng idx)
  | tick (s : Sim) (dt : ℚ) : Reachable s → Reachable (s.update dt)
  | start (s : Sim) : Reachable s → Reachable s.start
  | pause (s : Sim) : Reachable s → Reachable s.pause
  | resume (s : Sim) : Reachable s → Reachable s.resume
  | reset (s : Sim) : Reachable s → Reachable s.reset
  | setSpeed (s : Sim) (v : ℚ) : Reachable s → Reachable (s.setSpeed v)

/-- All-zero entropy stream, used for concrete runs. -/
def zeroStream : Nat → Nat := fun _ => 0

/-- The product freshly created by one call of `_schedule_next_ws1` on `s`. -/
def newProduct (s : Sim) : Product :=
  { pid := s.next_pid,
    prod_time := randInt PROD_MIN PROD_MAX (s.rng s.rngIdx),
    setup_time := randInt SETUP_MIN SETUP_MAX (s.rng (s.rngIdx + 1)),
    transfer_time := randInt TRANSFER_MIN TRANSFER_MAX (s.rng (s.rngIdx + 2)),
    proc_time := randInt PROC_MIN PROC_MAX (s.rng (s.rngIdx + 3)),
    t_prod_start := some s.now, t_prod_done := none, t_transfer_done := none,
    t_proc_start := none, t_proc_done := none,
    state := .producing_ws1, x := some WS1_CENTER_X, y := some WS1_CENTER_Y,
    target_x := none, target_y := none }

/-- The structural invariant maintained by every operation: pids are distinct
and below the counter, a producing product can only be the most recent one,
`processing_ws2` is synchronised with the current-id marker, queue and
finished lists hold pids of existing products in the expected states, with
no duplicates. -/
structure Inv (s : Sim) : Prop where
  pidNodup : (s.products.map Product.pid).Nodup
  pidLt : ∀ p ∈ s.products, p.pid < s.next_pid
  producingLast : ∀ p ∈ s.products, p.state = .producing_ws1 → s.products.getLast? = some p
  procIff : ∀ p ∈ s.products, (p.state = .processing_ws2 ↔ s.ws2_current_id = some p.pid)
  currentMem : ∀ cid, s.ws2_current_id = some cid → ∃ p ∈ s.products, p.pid = cid
  queueMem : ∀ pid ∈ s.queue_ws2, ∃ p ∈ s.products, p.pid = pid ∧ p.state = .in_queue_ws2
  queueNodup : s.queue_ws2.Nodup
  finMem : ∀ pid ∈ s.finished_ids, ∃ p ∈ s.products, p.pid = pid ∧ p.state = .finished
  finNodup : s.finished_ids.Nodup

/-- Number of products currently in state `producing_ws1`. -/
def producingCount (s : Sim) : Nat :=
  (s.products.filter fun p => p.state == PState.producing_ws1).length

/-- Number of products currently in state `processing_ws2`. -/
def processingCount (s : Sim) : Nat :=
  (s.products.filter fun p => p.state == PState.processing_ws2).length

/-- Modelled from the spec sentence "completion check → production/transfer
advance → WS1 scheduling check → tryStartNext": the tick with the WS2
completion check run first, for comparison against `Sim.update` (which
follows the source order). -/
def specOrderUpdate (s : Sim) (dt : ℚ) : Sim :=
  if ¬s.running = true ∨ s.paused = true then s
  else tryStartWs2 (ws1SchedStep (prodTransferStep (ws2CompletionStep (advanceTime s dt))))

/-- A producing product, mid-production, while the WS2 marker (incorrectly for
a reachable state, but any state is legal input to `update`) points at it. -/
def cxProduct : Product :=
  { pid := 1, prod_time := 10, setup_time := 1, transfer_time := 1, proc_time := 1,
    t_prod_start := some 0, t_prod_done := none, t_transfer_done := none,
    t_proc_start := none, t_proc_done := none,
    state := .producing_ws1, x := some WS1_CENTER_X, y := some WS1_CENTER_Y,
    target_x := none, target_y := none }

def cxSim : Sim :=
  { now := 0, speed := 1, running := true, paused := false,
    products := [cxProduct], queue_ws2 := [], finished_ids := [],
    ws1_busy_until := 1000, ws2_busy_until := 5, ws2_current_id := some 1,
    next_pid := 2, assigned_list := [], rng := zeroStream, rngIdx := 0 }

def cxSimA : Sim := { cxSim with now := 20 }

/-- State of `cxProduct` after the completion check ran first (spec order). -/
def cxProductFin : Product := { cxProduct with t_proc_done := some 5, state := .finished }

def cxSimB : Sim :=
  { cxSim with
      now := 20,
      products := [cxProductFin],
      finished_ids := [1],
      ws2_current_id := none }

/-- State of `cxProduct` after the production/transfer advance ran first (source order). -/
def cxProductTr : Product :=
  { cxProduct with
      t_prod_done := some 10,
      state := .transferring,
      target_x := some WS2_CENTER_X,
      target_y := some WS2_CENTER_Y }

def cxSimC : Sim := { cxSim with now := 20, products := [cxProductTr] }

def cxSimD : Sim :=
  { cxSim with
      now := 20,
      products := [{ cxProductTr with t_proc_done := some 5, state := .finished }],
      finished_ids := [1],
      ws2_current_id := none }

/-- Operations the UI layer can invoke between frames. -/
inductive Op where
  | tick (dt : ℚ)
  | start
  | pause
  | resume
  | reset
  | setSpeed (v : ℚ)
  deriving DecidableEq

def applyOp (s : Sim) : Op → Sim
  | .tick dt => s.update dt
  | .start => s.start
  | .pause => s.pause
  | .resume => s.resume
  | .reset => s.reset
  | .setSpeed v => s.setSpeed v

def runOps (s : Sim) : List Op → Sim
  | [] => s
  | o :: os => runOps (applyOp s o) os

/-- The ids appended to the WS2 queue (at transfer arrival, in arrival order)
during one tick. -/
def tickEnqueues (s : Sim) (dt : ℚ) : List Nat :=
  if ¬s.running = true ∨ s.paused = true then []
  else enqList (advanceTime s dt).now (advanceTime s dt).products

/-- The ids removed from the head of the WS2 queue by `_try_start_ws2` during
one tick (zero or one). -/
def tickDequeues (s : Sim) (dt : ℚ) : List Nat :=
  if ¬s.running = true ∨ s.paused = true then []
  else
    match (ws2CompletionStep (ws1SchedStep (prodTransferStep
            (advanceTime s dt)))).ws2_current_id,
          (ws2CompletionStep (ws1SchedStep (prodTransferStep
            (advanceTime s dt)))).queue_ws2 with
    | none, pid :: _ => [pid]
    | _, _ => []

def opEnqueues (s : Sim) : Op → List Nat
  | .tick dt => tickEnqueues s dt
  | _ => []

def opDequeues (s : Sim) : Op → List Nat
  | .tick dt => tickDequeues s dt
  | _ => []

/-- All ids appended to the WS2 queue over a run, in order. -/
def runEnqueues (s : Sim) : List Op → List Nat
  | [] => []
  | o :: os => opEnqueues s o ++ runEnqueues (applyOp s o) os

/-- All ids removed from the WS2 queue by `_try_start_ws2` over a run, in order. -/
def runDequeues (s : Sim) : List Op → List Nat
  | [] => []
  | o :: os => opDequeues s o ++ runDequeues (applyOp s o) os

/-! ### Lemmas and claim theorems -/

theorem produceAdvance_of_ne (now : ℚ) (p : Product) (h : p.state ≠ .producing_ws1) :
    produceAdvance now p = p := by
  simp [produceAdvance, h]

theorem produceAdvance_pid (now : ℚ) (p : Product) : (produceAdvance now p).pid = p.pid := by
  unfold produceAdvance; split <;> rfl

theorem produceAdvance_state (now : ℚ) (p : Product) :
    (produceAdvance now p).state = p.state ∨
      (p.state = .producing_ws1 ∧ (produceAdvance now p).state = .produced) := by
  unfold produceAdvance; split
  · next h => exact Or.inr ⟨h.1, rfl⟩
  · exact Or.inl rfl

theorem transferAdvance_of_stall (p : Product) (h1 : p.state ≠ .produced)
    (h2 : p.state ≠ .transferring) : transferAdvance p = (p, false) := by
  simp [transferAdvance, h1, h2]

theorem transferAdvance_pid (p : Product) : ((transferAdvance p).1).pid = p.pid := by
  unfold transferAdvance; split
  · rfl
  · split
    · split <;> rfl
    · rfl

theorem stepProduct_pid (now : ℚ) (p : Product) : ((stepProduct now p).1).pid = p.pid := by
  unfold stepProduct
  rw [transferAdvance_pid, produceAdvance_pid]

theorem stepProduct_stall (now : ℚ) (p : Product)
    (h : p.state = .waiting_ws1 ∨ p.state = .in_queue_ws2 ∨ p.state = .processing_ws2 ∨
      p.state = .finished) : stepProduct now p = (p, false) := by
  have h1 : p.state ≠ .producing_ws1 := by rcases h with h | h | h | h <;> simp [h]
  have h2 : p.state ≠ .produced := by rcases h with h | h | h | h <;> simp [h]
  have h3 : p.state ≠ .transferring := by rcases h with h | h | h | h <;> simp [h]
  unfold stepProduct
  rw [produceAdvance_of_ne now p h1, transferAdvance_of_stall p h2 h3]

theorem transferAdvance_state_back (p : Product) (c : PState)
    (hc : c = .producing_ws1 ∨ c = .processing_ws2 ∨ c = .finished ∨ c = .waiting_ws1 ∨
      c = .produced) (h : ((transferAdvance p).1).state = c) : p.state = c := by
  have hcne1 : c ≠ PState.transferring := by rcases hc with hc | hc | hc | hc | hc <;> simp [hc]
  have hcne2 : c ≠ PState.in_queue_ws2 := by rcases hc with hc | hc | hc | hc | hc <;> simp [hc]
  unfold transferAdvance at h
  split at h
  · exact absurd h.symm hcne1
  · split at h
    · split at h
      · exact absurd h.symm hcne2
      · exact h
    · exact h

theorem stepProduct_state_back (now : ℚ) (p : Product) (c : PState)
    (hc : c = .producing_ws1 ∨ c = .processing_ws2 ∨ c = .finished ∨ c = .waiting_ws1)
    (h : ((stepProduct now p).1).state = c) : p.state = c := by
  unfold stepProduct at h
  have hpa : (produceAdvance now p).state = c :=
    transferAdvance_state_back _ c (by tauto) h
  rcases produceAdvance_state now p with he | ⟨hp, he⟩
  · rw [← he]; exact hpa
  · rw [he] at hpa
    rcases hc with hc | hc | hc | hc <;> rw [← hpa] at hc <;> simp at hc

theorem stepProduct_of_processing (now : ℚ) (p : Product) (h : p.state = .processing_ws2) :
    stepProduct now p = (p, false) :=
  stepProduct_stall now p (by tauto)

theorem stepProduct_of_finished (now : ℚ) (p : Product) (h : p.state = .finished) :
    stepProduct now p = (p, false) :=
  stepProduct_stall now p (by tauto)

theorem stepProduct_of_in_queue (now : ℚ) (p : Product) (h : p.state = .in_queue_ws2) :
    stepProduct now p = (p, false) :=
  stepProduct_stall now p (by tauto)

theorem stepProduct_enq (now : ℚ) (p : Product) (h : (stepProduct now p).2 = true) :
    p.state = .transferring ∧ ((stepProduct now p).1).state = .in_queue_ws2 := by
  have hp : p.state = .transferring := by
    unfold stepProduct transferAdvance at h
    split at h
    · simp at h
    · split at h
      · next htr =>
          rcases produceAdvance_state now p with he | ⟨hpr, he⟩
          · rw [← he]; exact htr
          · rw [he] at htr; simp at htr
      · simp at h
  refine ⟨hp, ?_⟩
  have hpa : produceAdvance now p = p := produceAdvance_of_ne now p (by simp [hp])
  unfold stepProduct at h ⊢
  rw [hpa] at h ⊢
  unfold transferAdvance at h ⊢
  rw [if_neg (by simp [hp]), if_pos hp] at h ⊢
  split at h
  · next harr => rw [if_pos harr]
  · simp at h

theorem enqList_eq_map_filter (now : ℚ) (l : List Product) :
    enqList now l =
      (l.filter fun p => (stepProduct now p).2).map Product.pid := by
  induction l with
  | nil => rfl
  | cons p ps ih =>
      by_cases h : (stepProduct now p).2 = true
      · simp [enqList, List.filterMap_cons, List.filter_cons, h, stepProduct_pid] at ih ⊢
        exact ih
      · simp only [Bool.not_eq_true] at h
        simp [enqList, List.filterMap_cons, List.filter_cons, h] at ih ⊢
        exact ih

theorem mem_enqList (now : ℚ) (l : List Product) (pid : Nat) (h : pid ∈ enqList now l) :
    ∃ p ∈ l, p.pid = pid ∧ p.state = .transferring ∧ (stepProduct now p).2 = true := by
  rw [enqList_eq_map_filter] at h
  rcases List.mem_map.1 h with ⟨p, hpmem, hpid⟩
  rcases List.mem_filter.1 hpmem with ⟨hmem, hflag⟩
  exact ⟨p, hmem, hpid, (stepProduct_enq now p hflag).1, hflag⟩

theorem enqList_nodup (now : ℚ) (l : List Product)
    (h : (l.map Product.pid).Nodup) : (enqList now l).Nodup := by
  rw [enqList_eq_map_filter]
  exact h.sublist (List.Sublist.map Product.pid (List.filter_sublist l))

theorem setFirst_map_pid (pid : Nat) (f : Product → Product) (l : List Product)
    (hf : ∀ q, (f q).pid = q.pid) :
    (setFirst pid f l).map Product.pid = l.map Product.pid := by
  induction l with
  | nil => rfl
  | cons p ps ih =>
      unfold setFirst
      split
      · simp [hf]
      · simp [ih]

theorem setFirst_eq_of_none (pid : Nat) (f : Product → Product) (l : List Product)
    (h : ∀ q ∈ l, q.pid ≠ pid) : setFirst pid f l = l := by
  induction l with
  | nil => rfl
  | cons p ps ih =>
      unfold setFirst
      rw [if_neg (h p (List.mem_cons_self p ps))]
      rw [ih fun q hq => h q (List.mem_cons_of_mem p hq)]

theorem mem_setFirst (pid : Nat) (f : Product → Product) (l : List Product)
    (hnd : (l.map Product.pid).Nodup) (q : Product) :
    q ∈ setFirst pid f l ↔
      (q ∈ l ∧ q.pid ≠ pid) ∨ ∃ r ∈ l, r.pid = pid ∧ q = f r := by
  induction l with
  | nil => simp [setFirst]
  | cons p ps ih =>
      rw [List.map_cons, List.nodup_cons] at hnd
      unfold setFirst
      split
      · next hp =>
          constructor
          · intro hq
            rcases List.mem_cons.1 hq with hq | hq
            · exact Or.inr ⟨p, List.mem_cons_self p ps, hp, hq⟩
            · refine Or.inl ⟨List.mem_cons_of_mem p hq, ?_⟩
              intro hqe
              apply hnd.1
              rw [hp, ← hqe]
              exact List.mem_map_of_mem Product.pid hq
          · rintro (⟨hq, hne⟩ | ⟨r, hr, hrpid, hqf⟩)
            · rcases List.mem_cons.1 hq with hq | hq
              · exact absurd (hq ▸ hp) hne
              · exact List.mem_cons_of_mem _ hq
            · rcases List.mem_cons.1 hr with hr | hr
              · exact hqf ▸ hr ▸ List.mem_cons_self _ _
              · exact absurd (by rw [hp, ← hrpid]; exact List.mem_map_of_mem Product.pid hr)
                  hnd.1
      · next hp =>
          constructor
          · intro hq
            rcases List.mem_cons.1 hq with hq | hq
            · exact Or.inl ⟨hq ▸ List.mem_cons_self p ps, hq ▸ hp⟩
            · rcases (ih hnd.2).1 hq with ⟨hq1, hq2⟩ | ⟨r, hr, hrpid, hqf⟩
              · exact Or.inl ⟨List.mem_cons_of_mem p hq1, hq2⟩
              · exact Or.inr ⟨r, List.mem_cons_of_mem p hr, hrpid, hqf⟩
          · rintro (⟨hq, hne⟩ | ⟨r, hr, hrpid, hqf⟩)
            · rcases List.mem_cons.1 hq with hq | hq
              · exact hq ▸ List.mem_cons_self _ _
              · exact List.mem_cons_of_mem p ((ih hnd.2).2 (Or.inl ⟨hq, hne⟩))
            · rcases List.mem_cons.1 hr with hr | hr
              · exact absurd (hr ▸ hrpid) hp
              · exact List.mem_cons_of_mem p ((ih hnd.2).2 (Or.inr ⟨r, hr, hrpid, hqf⟩))

theorem getLast?_setFirst (pid : Nat) (f : Product → Product) (l : List Product)
    (a : Product) (h : l.getLast? = some a) :
    (setFirst pid f l).getLast? = some a ∨
      (a.pid = pid ∧ (setFirst pid f l).getLast? = some (f a)) := by
  induction l generalizing a with
  | nil => simp at h
  | cons p ps ih =>
      cases ps with
      | nil =>
          have h' : p = a := by simpa using h
          subst h'
          unfold setFirst
          split
          · next hp => exact Or.inr ⟨hp, by simp [setFirst]⟩
          · exact Or.inl (by simp [setFirst])
      | cons p2 ps2 =>
          have h2 : (p2 :: ps2).getLast? = some a := by
            rw [List.getLast?_cons_cons] at h; exact h
          unfold setFirst
          split
          · rw [List.getLast?_cons_cons]
            exact Or.inl h2
          · rcases ih a h2 with hl | ⟨hpid, hl⟩
            · refine Or.inl ?_
              cases hsf : setFirst pid f (p2 :: ps2) with
              | nil => rw [hsf] at hl; simp at hl
              | cons b bs =>
                  rw [hsf] at hl
                  rw [List.getLast?_cons_cons]
                  exact hl
            · refine Or.inr ⟨hpid, ?_⟩
              cases hsf : setFirst pid f (p2 :: ps2) with
              | nil => rw [hsf] at hl; simp at hl
              | cons b bs =>
                  rw [hsf] at hl
                  rw [List.getLast?_cons_cons]
                  exact hl

theorem findByPid_isSome (l : List Product) (pid : Nat) (p : Product)
    (hmem : p ∈ l) (hpid : p.pid = pid) : (findByPid l pid).isSome := by
  rw [Option.isSome_iff_ne_none]
  intro hnone
  unfold findByPid at hnone
  have h2 := List.find?_eq_none.1 hnone p hmem
  simp [hpid] at h2

theorem findByPid_spec (l : List Product) (pid : Nat) (q : Product)
    (h : findByPid l pid = some q) : q ∈ l ∧ q.pid = pid := by
  refine ⟨List.mem_of_find?_eq_some h, ?_⟩
  have := List.find?_some h
  simpa using this

theorem nodup_all_eq_length_le (l : List Nat) (a : Nat) (hnd : l.Nodup)
    (h : ∀ x ∈ l, x = a) : l.length ≤ 1 := by
  cases l with
  | nil => simp
  | cons x xs =>
      cases xs with
      | nil => simp
      | cons y ys =>
          exfalso
          rw [List.nodup_cons] at hnd
          have hx : x = a := h x (List.mem_cons_self _ _)
          have hy : y = a := h y (List.mem_cons_of_mem x (List.mem_cons_self _ _))
          exact hnd.1 (by rw [hx, hy]; exact List.mem_cons_self _ _)

theorem pid_inj_of_nodup (l : List Product) (hnd : (l.map Product.pid).Nodup)
    (p q : Product) (hp : p ∈ l) (hq : q ∈ l) (h : p.pid = q.pid) : p = q :=
  List.inj_on_of_nodup_map hnd hp hq h

set_option maxHeartbeats 1000000 in
theorem scheduleNextWs1_eq (s : Sim) :
    scheduleNextWs1 s =
      { s with
          products := s.products ++ [newProduct s],
          ws1_busy_until := s.now + ((newProduct s).prod_time : ℚ) +
            ((newProduct s).setup_time : ℚ),
          assigned_list := s.assigned_list ++
            [((newProduct s).pid, (newProduct s).prod_time, (newProduct s).transfer_time,
              (newProduct s).proc_time)],
          next_pid := s.next_pid + 1,
          rngIdx := s.rngIdx + 4 } := rfl

theorem randInt_ge (lo hi v : Nat) : lo ≤ randInt lo hi v := Nat.le_add_right lo _

theorem randInt_le (lo hi v : Nat) (h : lo ≤ hi) : randInt lo hi v ≤ hi := by
  unfold randInt
  have hm := Nat.mod_lt v (show 0 < hi + 1 - lo by omega)
  omega

theorem inv_congr (s t : Sim) (h1 : s.products = t.products)
    (h2 : s.queue_ws2 = t.queue_ws2) (h3 : s.finished_ids = t.finished_ids)
    (h4 : s.ws2_current_id = t.ws2_current_id) (h5 : s.next_pid = t.next_pid)
    (h : Inv s) : Inv t := by
  constructor
  · rw [← h1]; exact h.pidNodup
  · rw [← h1, ← h5]; exact h.pidLt
  · rw [← h1]; exact h.producingLast
  · rw [← h1, ← h4]; exact h.procIff
  · rw [← h1, ← h4]; exact h.currentMem
  · rw [← h1, ← h2]; exact h.queueMem
  · rw [← h2]; exact h.queueNodup
  · rw [← h1, ← h3]; exact h.finMem
  · rw [← h3]; exact h.finNodup

theorem inv_scheduleNext (s : Sim) (h : Inv s)
    (hnp : ∀ p ∈ s.products, p.state ≠ .producing_ws1) : Inv (scheduleNextWs1 s) := by
  rw [scheduleNextWs1_eq]
  constructor
  · simp only [List.map_append, List.map_cons, List.map_nil]
    rw [List.nodup_append]
    refine ⟨h.pidNodup, List.nodup_singleton _, ?_⟩
    intro a ha hb
    rcases List.mem_map.1 ha with ⟨q, hq, hqa⟩
    have := h.pidLt q hq
    simp only [List.mem_singleton] at hb
    rw [hb] at hqa
    simp only [newProduct] at hqa
    omega
  · intro p hp
    rcases List.mem_append.1 hp with hp | hp
    · have := h.pidLt p hp; simp only; omega
    · simp only [List.mem_singleton] at hp
      rw [hp]
      simp [newProduct]
  · intro p hp hps
    rcases List.mem_append.1 hp with hp | hp
    · exact absurd hps (hnp p hp)
    · simp only [List.mem_singleton] at hp
      rw [hp, List.getLast?_concat]
  · intro p hp
    rcases List.mem_append.1 hp with hp | hp
    · exact h.procIff p hp
    · simp only [List.mem_singleton] at hp
      constructor
      · intro hps
        rw [hp] at hps
        simp [newProduct] at hps
      · intro hcur
        rcases h.currentMem _ hcur with ⟨q, hq, hqpid⟩
        have := h.pidLt q hq
        rw [hp] at hqpid ⊢
        simp only [newProduct] at hqpid
        omega
  · intro cid hcur
    rcases h.currentMem cid hcur with ⟨q, hq, hqpid⟩
    exact ⟨q, List.mem_append_left _ hq, hqpid⟩
  · intro pid hpid
    rcases h.queueMem pid hpid with ⟨q, hq, hqpid, hqs⟩
    exact ⟨q, List.mem_append_left _ hq, hqpid, hqs⟩
  · exact h.queueNodup
  · intro pid hpid
    rcases h.finMem pid hpid with ⟨q, hq, hqpid, hqs⟩
    exact ⟨q, List.mem_append_left _ hq, hqpid, hqs⟩
  · exact h.finNodup

theorem inv_fresh (rng : Nat → Nat) (idx : Nat) : Inv (freshSim rng idx) := by
  constructor <;> simp [freshSim]

theorem inv_init (rng : Nat → Nat) (idx : Nat) : Inv (initSim rng idx) :=
  inv_scheduleNext _ (inv_fresh rng idx) (by simp [freshSim])

theorem inv_prodTransfer (s : Sim) (h : Inv s) : Inv (prodTransferStep s) := by
  unfold prodTransferStep
  have hpidmap : ((s.products.map fun p => (stepProduct s.now p).1).map Product.pid) =
      s.products.map Product.pid := by
    rw [List.map_map]
    have hfe : (Product.pid ∘ fun p => (stepProduct s.now p).1) = Product.pid :=
      funext fun p => stepProduct_pid s.now p
    rw [hfe]
  constructor
  · show ((s.products.map fun p => (stepProduct s.now p).1).map Product.pid).Nodup
    rw [hpidmap]; exact h.pidNodup
  · intro p hp
    rcases List.mem_map.1 hp with ⟨q, hq, hqe⟩
    simp only
    rw [← hqe, stepProduct_pid]
    exact h.pidLt q hq
  · intro p hp hps
    rcases List.mem_map.1 hp with ⟨q, hq, hqe⟩
    have hqs : q.state = .producing_ws1 := by
      apply stepProduct_state_back s.now q _ (Or.inl rfl)
      rw [hqe]; exact hps
    have hlast := h.producingLast q hq hqs
    show ((s.products.map fun p => (stepProduct s.now p).1)).getLast? = some p
    rw [List.getLast?_map, hlast]
    simp [hqe]
  · intro p hp
    rcases List.mem_map.1 hp with ⟨q, hq, hqe⟩
    constructor
    · intro hps
      have hqs : q.state = .processing_ws2 := by
        apply stepProduct_state_back s.now q _ (Or.inr (Or.inl rfl))
        rw [hqe]; exact hps
      have := (h.procIff q hq).1 hqs
      simp only
      rw [← hqe, stepProduct_pid]
      exact this
    · intro hcur
      simp only at hcur
      rw [← hqe, stepProduct_pid] at hcur
      have hqs := (h.procIff q hq).2 hcur
      have hstall := stepProduct_of_processing s.now q hqs
      rw [← hqe, hstall]
      exact hqs
  · intro cid hcur
    simp only at hcur
    rcases h.currentMem cid hcur with ⟨q, hq, hqpid⟩
    refine ⟨(stepProduct s.now q).1, List.mem_map_of_mem _ hq, ?_⟩
    rw [stepProduct_pid]; exact hqpid
  · intro pid hpid
    simp only at hpid
    rcases List.mem_append.1 hpid with hpid | hpid
    · rcases h.queueMem pid hpid with ⟨q, hq, hqpid, hqs⟩
      have hstall := stepProduct_of_in_queue s.now q hqs
      refine ⟨(stepProduct s.now q).1, List.mem_map_of_mem _ hq, ?_, ?_⟩
      · rw [stepProduct_pid]; exact hqpid
      · rw [hstall]; exact hqs
    · rcases mem_enqList s.now s.products pid hpid with ⟨q, hq, hqpid, hqtr, hflag⟩
      refine ⟨(stepProduct s.now q).1, List.mem_map_of_mem _ hq, ?_, ?_⟩
      · rw [stepProduct_pid]; exact hqpid
      · exact (stepProduct_enq s.now q hflag).2
  · simp only
    rw [List.nodup_append]
    refine ⟨h.queueNodup, enqList_nodup s.now s.products h.pidNodup, ?_⟩
    intro pid hpid1 hpid2
    rcases h.queueMem pid hpid1 with ⟨q1, hq1, hq1pid, hq1s⟩
    rcases mem_enqList s.now s.products pid hpid2 with ⟨q2, hq2, hq2pid, hq2s, _⟩
    have : q1 = q2 := pid_inj_of_nodup s.products h.pidNodup q1 q2 hq1 hq2
      (by rw [hq1pid, hq2pid])
    rw [this, hq2s] at hq1s
    simp at hq1s
  · intro pid hpid
    rcases h.finMem pid hpid with ⟨q, hq, hqpid, hqs⟩
    have hstall := stepProduct_of_finished s.now q hqs
    refine ⟨(stepProduct s.now q).1, List.mem_map_of_mem _ hq, ?_, ?_⟩
    · rw [stepProduct_pid]; exact hqpid
    · rw [hstall]; exact hqs
  · exact h.finNodup

theorem inv_ws1Sched (s : Sim) (h : Inv s) : Inv (ws1SchedStep s) := by
  unfold ws1SchedStep
  split
  · split
    · next hlast =>
        refine inv_congr (scheduleNextWs1 s) _ rfl rfl rfl rfl rfl
          (inv_scheduleNext s h ?_)
        intro p hp
        rw [List.getLast?_eq_none_iff.1 hlast] at hp
        simp at hp
    · next last hlast =>
        split
        · next hlp =>
            refine inv_congr (scheduleNextWs1 s) _ rfl rfl rfl rfl rfl
              (inv_scheduleNext s h ?_)
            intro p hp hps
            have hl2 := h.producingLast p hp hps
            rw [hlast] at hl2
            have hpl : last = p := by simpa using hl2
            rw [← hpl] at hps
            rw [hps] at hlp
            simp [leftProducing] at hlp
        · exact h
  · exact h

theorem finishProduct_pid (t : ℚ) (p : Product) : (finishProduct t p).pid = p.pid := rfl

theorem startProcProduct_pid (t : ℚ) (p : Product) :
    (startProcProduct t p).pid = p.pid := rfl

theorem inv_completion (s : Sim) (h : Inv s) : Inv (ws2CompletionStep s) := by
  unfold ws2CompletionStep
  split
  · exact h
  · next cid hcur =>
      split
      · exact h
      · split
        · next htime =>
            obtain ⟨pc, hpc, hpcpid⟩ := h.currentMem cid hcur
            have hpcs : pc.state = .processing_ws2 :=
              (h.procIff pc hpc).2 (by rw [hcur, hpcpid])
            have hnd := h.pidNodup
            have hfc := finishProduct_pid s.ws2_busy_until
            constructor
            · show ((setFirst cid (finishProduct s.ws2_busy_until) s.products).map
                Product.pid).Nodup
              rw [setFirst_map_pid _ _ _ hfc]
              exact hnd
            · intro q hq
              rcases (mem_setFirst cid _ s.products hnd q).1 hq with
                ⟨hql, _⟩ | ⟨r, hr, hrpid, hqf⟩
              · exact h.pidLt q hql
              · rw [hqf, hfc]; exact h.pidLt r hr
            · intro q hq hqs
              rcases (mem_setFirst cid _ s.products hnd q).1 hq with
                ⟨hql, hqne⟩ | ⟨r, hr, hrpid, hqf⟩
              · have hl := h.producingLast q hql hqs
                show (setFirst cid (finishProduct s.ws2_busy_until) s.products).getLast? =
                  some q
                rcases getLast?_setFirst cid _ s.products q hl with h1 | ⟨hqp, _⟩
                · exact h1
                · exact absurd hqp hqne
              · rw [hqf] at hqs
                simp [finishProduct] at hqs
            · intro q hq
              constructor
              · intro hqs
                exfalso
                rcases (mem_setFirst cid _ s.products hnd q).1 hq with
                  ⟨hql, hqne⟩ | ⟨r, hr, hrpid, hqf⟩
                · have := (h.procIff q hql).1 hqs
                  rw [hcur] at this
                  exact hqne (by simpa using this.symm)
                · rw [hqf] at hqs
                  simp [finishProduct] at hqs
              · intro hno
                exact absurd hno (by simp)
            · intro cid' hc'
              simp at hc'
            · intro pid hpid
              rcases h.queueMem pid hpid with ⟨q, hql, hqpid, hqs⟩
              have hqne : q.pid ≠ cid := by
                intro he
                have hqpc : q = pc := pid_inj_of_nodup s.products hnd q pc hql hpc
                  (by rw [he, hpcpid])
                rw [hqpc, hpcs] at hqs
                simp at hqs
              exact ⟨q, (mem_setFirst cid _ s.products hnd q).2 (Or.inl ⟨hql, hqne⟩),
                hqpid, hqs⟩
            · exact h.queueNodup
            · intro pid hpid
              rcases List.mem_append.1 hpid with hpid | hpid
              · rcases h.finMem pid hpid with ⟨q, hql, hqpid, hqs⟩
                have hqne : q.pid ≠ cid := by
                  intro he
                  have hqpc : q = pc := pid_inj_of_nodup s.products hnd q pc hql hpc
                    (by rw [he, hpcpid])
                  rw [hqpc, hpcs] at hqs
                  simp at hqs
                exact ⟨q, (mem_setFirst cid _ s.products hnd q).2 (Or.inl ⟨hql, hqne⟩),
                  hqpid, hqs⟩
              · have hpidc : pid = cid := by simpa using hpid
                refine ⟨finishProduct s.ws2_busy_until pc,
                  (mem_setFirst cid _ s.products hnd _).2 (Or.inr ⟨pc, hpc, hpcpid, rfl⟩),
                  ?_, rfl⟩
                rw [hfc, hpcpid, hpidc]
            · show (s.finished_ids ++ [cid]).Nodup
              rw [List.nodup_append]
              refine ⟨h.finNodup, List.nodup_singleton _, ?_⟩
              intro a ha hb
              have hac : a = cid := by simpa using hb
              rcases h.finMem a ha with ⟨q, hql, hqpid, hqs⟩
              have hqpc : q = pc := pid_inj_of_nodup s.products hnd q pc hql hpc
                (by rw [hqpid, hac, hpcpid])
              rw [hqpc, hpcs] at hqs
              simp at hqs
        · exact h

theorem inv_tryStart (s : Sim) (h : Inv s) : Inv (tryStartWs2 s) := by
  unfold tryStartWs2
  split
  · exact h
  · next hcur =>
      split
      · exact h
      · next pid rest hqu =>
          have hpidq : pid ∈ s.queue_ws2 := by rw [hqu]; exact List.mem_cons_self _ _
          have hqucons := h.queueNodup
          rw [hqu, List.nodup_cons] at hqucons
          split
          · constructor
            · exact h.pidNodup
            · exact h.pidLt
            · exact h.producingLast
            · exact h.procIff
            · exact h.currentMem
            · intro pid' hp'
              exact h.queueMem pid' (by rw [hqu]; exact List.mem_cons_of_mem _ hp')
            · exact hqucons.2
            · exact h.finMem
            · exact h.finNodup
          · next p0 hfind =>
              have hnone : ∀ q ∈ s.products, q.state ≠ .processing_ws2 := by
                intro q hq hqs
                have := (h.procIff q hq).1 hqs
                rw [hcur] at this
                exact Option.noConfusion this
              obtain ⟨pq, hpq, hpqpid, hpqs⟩ := h.queueMem pid hpidq
              have hnd := h.pidNodup
              have hfc := startProcProduct_pid s.now
              constructor
              · show ((setFirst pid (startProcProduct s.now) s.products).map
                  Product.pid).Nodup
                rw [setFirst_map_pid _ _ _ hfc]
                exact hnd
              · intro q hq
                rcases (mem_setFirst pid _ s.products hnd q).1 hq with
                  ⟨hql, _⟩ | ⟨r, hr, hrpid, hqf⟩
                · exact h.pidLt q hql
                · rw [hqf, hfc]; exact h.pidLt r hr
              · intro q hq hqs
                rcases (mem_setFirst pid _ s.products hnd q).1 hq with
                  ⟨hql, hqne⟩ | ⟨r, hr, hrpid, hqf⟩
                · have hl := h.producingLast q hql hqs
                  show (setFirst pid (startProcProduct s.now) s.products).getLast? = some q
                  rcases getLast?_setFirst pid _ s.products q hl with h1 | ⟨hqp, _⟩
                  · exact h1
                  · exact absurd hqp hqne
                · rw [hqf] at hqs
                  simp [startProcProduct] at hqs
              · intro q hq
                rcases (mem_setFirst pid _ s.products hnd q).1 hq with
                  ⟨hql, hqne⟩ | ⟨r, hr, hrpid, hqf⟩
                · constructor
                  · intro hqs
                    exact absurd hqs (hnone q hql)
                  · intro hsome
                    have : pid = q.pid := by simpa using hsome
                    exact absurd this.symm hqne
                · constructor
                  · intro _
                    show some pid = some q.pid
                    rw [hqf, hfc, hrpid]
                  · intro _
                    rw [hqf]
                    simp [startProcProduct]
              · intro cid' hc'
                have hcp : cid' = pid := by simpa using hc'.symm
                refine ⟨startProcProduct s.now pq,
                  (mem_setFirst pid _ s.products hnd _).2 (Or.inr ⟨pq, hpq, hpqpid, rfl⟩),
                  ?_⟩
                rw [hfc, hpqpid, hcp]
              · intro pid' hp'
                have hp'q : pid' ∈ s.queue_ws2 := by
                  rw [hqu]; exact List.mem_cons_of_mem _ hp'
                obtain ⟨q, hql, hqpid, hqs⟩ := h.queueMem pid' hp'q
                have hqne : q.pid ≠ pid := by
                  intro he
                  rw [hqpid] at he
                  rw [he] at hp'
                  exact hqucons.1 hp'
                exact ⟨q, (mem_setFirst pid _ s.products hnd q).2 (Or.inl ⟨hql, hqne⟩),
                  hqpid, hqs⟩
              · exact hqucons.2
              · intro pid' hp'
                obtain ⟨q, hql, hqpid, hqs⟩ := h.finMem pid' hp'
                have hqne : q.pid ≠ pid := by
                  intro he
                  have hqpq : q = pq := pid_inj_of_nodup s.products hnd q pq hql hpq
                    (by rw [he, hpqpid])
                  rw [hqpq, hpqs] at hqs
                  simp at hqs
                exact ⟨q, (mem_setFirst pid _ s.products hnd q).2 (Or.inl ⟨hql, hqne⟩),
                  hqpid, hqs⟩
              · exact h.finNodup

theorem inv_advance (s : Sim) (dt : ℚ) (h : Inv s) : Inv (advanceTime s dt) :=
  inv_congr s _ rfl rfl rfl rfl rfl h

theorem inv_update (s : Sim) (dt : ℚ) (h : Inv s) : Inv (s.update dt) := by
  unfold Sim.update
  split
  · exact h
  · exact inv_tryStart _ (inv_completion _ (inv_ws1Sched _ (inv_prodTransfer _
      (inv_advance s dt h))))

theorem reachable_inv (s : Sim) (h : Reachable s) : Inv s := by
  induction h with
  | init rng idx => exact inv_init rng idx
  | tick s dt _ ih => exact inv_update s dt ih
  | start s _ ih => exact inv_congr s _ rfl rfl rfl rfl rfl ih
  | pause s _ ih => exact inv_congr s _ rfl rfl rfl rfl rfl ih
  | resume s _ ih => exact inv_congr s _ rfl rfl rfl rfl rfl ih
  | reset s _ _ => exact inv_init s.rng s.rngIdx
  | setSpeed s v _ ih => exact inv_congr s _ rfl rfl rfl rfl rfl ih

theorem producingCount_le_one (s : Sim) (h : Inv s) : producingCount s ≤ 1 := by
  unfold producingCount
  rcases hlast : s.products.getLast? with _ | ⟨last⟩
  · rw [List.getLast?_eq_none_iff.1 hlast]
    simp
  · rw [← List.length_map (s.products.filter fun p => p.state == PState.producing_ws1)
      Product.pid]
    apply nodup_all_eq_length_le _ last.pid
    · exact (h.pidNodup).sublist (List.Sublist.map Product.pid (List.filter_sublist _))
    · intro a ha
      rcases List.mem_map.1 ha with ⟨q, hq, hqa⟩
      rcases List.mem_filter.1 hq with ⟨hql, hqs⟩
      rw [beq_iff_eq] at hqs
      have := h.producingLast q hql hqs
      rw [hlast] at this
      rw [← hqa]
      rw [show last = q by simpa using this]

theorem processingCount_le_one (s : Sim) (h : Inv s) : processingCount s ≤ 1 := by
  unfold processingCount
  rcases hcur : s.ws2_current_id with _ | ⟨cid⟩
  · have : s.products.filter (fun p => p.state == PState.processing_ws2) = [] := by
      rw [List.filter_eq_nil_iff]
      intro q hq hqs
      rw [beq_iff_eq] at hqs
      have := (h.procIff q hq).1 hqs
      rw [hcur] at this
      exact Option.noConfusion this
    rw [this]
    simp
  · rw [← List.length_map (s.products.filter fun p => p.state == PState.processing_ws2)
      Product.pid]
    apply nodup_all_eq_length_le _ cid
    · exact (h.pidNodup).sublist (List.Sublist.map Product.pid (List.filter_sublist _))
    · intro a ha
      rcases List.mem_map.1 ha with ⟨q, hq, hqa⟩
      rcases List.mem_filter.1 hq with ⟨hql, hqs⟩
      rw [beq_iff_eq] at hqs
      have := (h.procIff q hql).1 hqs
      rw [hcur] at this
      rw [← hqa]
      exact (by simpa using this.symm)

theorem update_of_not_active (s : Sim) (dt : ℚ)
    (h : ¬s.running = true ∨ s.paused = true) : s.update dt = s := by
  unfold Sim.update
  rw [if_pos h]

theorem ws1SchedStep_of_early (s : Sim) (h : ¬s.ws1_busy_until ≤ s.now) :
    ws1SchedStep s = s := by
  unfold ws1SchedStep
  rw [if_neg h]

theorem ws1SchedStep_of_last_producing (s : Sim) (last : Product)
    (hlast : s.products.getLast? = some last) (hlp : leftProducing last.state = false) :
    ws1SchedStep s = s := by
  unfold ws1SchedStep
  split
  · simp [hlast, hlp]
  · rfl

theorem tryStartWs2_of_current (s : Sim) (cid : Nat)
    (hcur : s.ws2_current_id = some cid) : tryStartWs2 s = s := by
  unfold tryStartWs2
  simp only [hcur]

/-- C1: in every state reachable from reset by ticks and control operations, at
most one product is in `producing_ws1` and at most one is in `processing_ws2`;
the WS1 scheduling block fires only when simulated time has reached
`ws1_busy_until` and the most recent product has left the producing condition
(otherwise it is a no-op), and `_try_start_ws2` is a no-op whenever the
current-processing marker `ws2_current_id` is set. -/
theorem C1_invariants (s : Sim) (h : Reachable s) :
    producingCount s ≤ 1 ∧ processingCount s ≤ 1 ∧
    (¬s.ws1_busy_until ≤ s.now → ws1SchedStep s = s) ∧
    (∀ last, s.products.getLast? = some last → leftProducing last.state = false →
      ws1SchedStep s = s) ∧
    (∀ cid, s.ws2_current_id = some cid → tryStartWs2 s = s) := by
  have hInv := reachable_inv s h
  exact ⟨producingCount_le_one s hInv, processingCount_le_one s hInv,
    ws1SchedStep_of_early s, ws1SchedStep_of_last_producing s,
    tryStartWs2_of_current s⟩

/-- Witness for C1: the freshly constructed state is reachable; its counts are
within bounds and its WS1 scheduling block does not fire (busy-until is 70,
simulated time 0). -/
theorem C1_invariants_witness :
    Reachable (initSim zeroStream 0) ∧
    producingCount (initSim zeroStream 0) ≤ 1 ∧
    processingCount (initSim zeroStream 0) ≤ 1 ∧
    ws1SchedStep (initSim zeroStream 0) = initSim zeroStream 0 := by
  have h := C1_invariants (initSim zeroStream 0) (Reachable.init zeroStream 0)
  refine ⟨Reachable.init zeroStream 0, h.1, h.2.1, h.2.2.1 ?_⟩
  norm_num [initSim, freshSim, scheduleNextWs1_eq, newProduct, randInt, zeroStream,
    PROD_MIN, PROD_MAX, SETUP_MIN, SETUP_MAX]

/-- C2: a tick while not running or while paused leaves the whole state — time,
products, queue, finished list, assignment log, counters — unchanged. -/
theorem C2_paused_tick_noop (s : Sim) (dt : ℚ)
    (h : s.running = false ∨ s.paused = true) : s.update dt = s := by
  apply update_of_not_active
  rcases h with h | h
  · exact Or.inl (by simp [h])
  · exact Or.inr h

/-- Witness for C2: the fresh state is paused, and a tick of 5 changes nothing. -/
theorem C2_paused_tick_noop_witness :
    ((initSim zeroStream 0).running = false ∨ (initSim zeroStream 0).paused = true) ∧
    (initSim zeroStream 0).update 5 = initSim zeroStream 0 :=
  ⟨Or.inr rfl, C2_paused_tick_noop (initSim zeroStream 0) 5 (Or.inr rfl)⟩

/-- C10: `reset` leaves the running flag false and the paused flag true, so any
sequence of ticks after a reset (or after construction, which is the same
code path) is a no-op — the state, including simulated time and the single
scheduled product, is exactly the reset state. -/
theorem C10_reset_paused (s : Sim) :
    s.reset.running = false ∧ s.reset.paused = true ∧
    ∀ dts : List ℚ, dts.foldl Sim.update s.reset = s.reset := by
  refine ⟨rfl, rfl, ?_⟩
  intro dts
  induction dts with
  | nil => rfl
  | cons d ds ih =>
      rw [List.foldl_cons, update_of_not_active _ _ (Or.inr rfl), ih]

/-- C6: `_schedule_next_ws1` creates exactly one new product whose id is the
pre-call next-id counter (then incremented by one), with production-start =
now, state `producing_ws1`, and the four durations drawn from the inclusive
ranges production [65,85], setup [5,15], transfer [5,11], processing [30,45];
it appends the product to the collection, appends (id, prod, transfer, proc)
to the assignment log, and sets WS1 busy-until = now + prod + setup. -/
theorem C6_scheduleNext (s : Sim) :
    ∃ p : Product,
      (scheduleNextWs1 s).products = s.products ++ [p] ∧
      p.pid = s.next_pid ∧
      (scheduleNextWs1 s).next_pid = s.next_pid + 1 ∧
      p.t_prod_start = some s.now ∧
      p.state = .producing_ws1 ∧
      PROD_MIN ≤ p.prod_time ∧ p.prod_time ≤ PROD_MAX ∧
      SETUP_MIN ≤ p.setup_time ∧ p.setup_time ≤ SETUP_MAX ∧
      TRANSFER_MIN ≤ p.transfer_time ∧ p.transfer_time ≤ TRANSFER_MAX ∧
      PROC_MIN ≤ p.proc_time ∧ p.proc_time ≤ PROC_MAX ∧
      (scheduleNextWs1 s).assigned_list =
        s.assigned_list ++ [(p.pid, p.prod_time, p.transfer_time, p.proc_time)] ∧
      (scheduleNextWs1 s).ws1_busy_until =
        s.now + (p.prod_time : ℚ) + (p.setup_time : ℚ) := by
  refine ⟨newProduct s, ?_, rfl, ?_, rfl, rfl,
    randInt_ge _ _ _, randInt_le _ _ _ (by decide),
    randInt_ge _ _ _, randInt_le _ _ _ (by decide),
    randInt_ge _ _ _, randInt_le _ _ _ (by decide),
    randInt_ge _ _ _, randInt_le _ _ _ (by decide), ?_, ?_⟩
  · rw [scheduleNextWs1_eq]
  · rw [scheduleNextWs1_eq]
  · rw [scheduleNextWs1_eq]
  · rw [scheduleNextWs1_eq]

/-- C3 counterexample: on `cxSim` the source tick records the production-done
timestamp (the advance runs before the completion check), while the claimed
completion-first ordering loses it; the two orders disagree, so the tick does
not execute the claimed order. -/
theorem C3_order_counterexample :
    Sim.update cxSim 20 ≠ specOrderUpdate cxSim 20 ∧
    (Sim.update cxSim 20).products.map (fun p => p.t_prod_done) = [some 10] ∧
    (specOrderUpdate cxSim 20).products.map (fun p => p.t_prod_done) = [none] := by
  have hguard : ¬(¬cxSim.running = true ∨ cxSim.paused = true) := by
    simp [cxSim]
  have e1 : advanceTime cxSim 20 = cxSimA := by
    norm_num [advanceTime, cxSim, cxSimA]
  -- source order
  have e2 : prodTransferStep cxSimA = cxSimC := by
    norm_num [prodTransferStep, stepProduct, produceAdvance, transferAdvance, enqList,
      cxSimA, cxSim, cxSimC, cxProduct, cxProductTr]
  have e3 : ws1SchedStep cxSimC = cxSimC := by
    apply ws1SchedStep_of_early
    norm_num [cxSimC, cxSim]
  have e4 : ws2CompletionStep cxSimC = cxSimD := by
    norm_num [ws2CompletionStep, findByPid, setFirst, finishProduct,
      cxSimC, cxSim, cxSimD, cxProduct, cxProductTr]
  have e5 : tryStartWs2 cxSimD = cxSimD := rfl
  have hsource : Sim.update cxSim 20 = cxSimD := by
    unfold Sim.update
    rw [if_neg hguard, e1, e2, e3, e4, e5]
  -- claimed order
  have f2 : ws2CompletionStep cxSimA = cxSimB := by
    norm_num [ws2CompletionStep, findByPid, setFirst, finishProduct,
      cxSimA, cxSim, cxSimB, cxProduct, cxProductFin]
  have f3 : prodTransferStep cxSimB = cxSimB := by
    norm_num [prodTransferStep, enqList, stepProduct_of_finished,
      cxSimB, cxSim, cxProductFin, cxProduct]
  have f4 : ws1SchedStep cxSimB = cxSimB := by
    apply ws1SchedStep_of_early
    norm_num [cxSimB, cxSim]
  have f5 : tryStartWs2 cxSimB = cxSimB := rfl
  have hspec : specOrderUpdate cxSim 20 = cxSimB := by
    unfold specOrderUpdate
    rw [if_neg hguard, e1, f2, f3, f4, f5]
  refine ⟨?_, ?_, ?_⟩
  · intro hcontra
    rw [hsource, hspec] at hcontra
    have := congrArg (fun t => t.products.map fun p => p.t_prod_done) hcontra
    simp [cxSimD, cxSimB, cxSim, cxProductTr, cxProductFin, cxProduct] at this
  · rw [hsource]
    simp [cxSimD, cxSim, cxProductTr, cxProduct]
  · rw [hspec]
    simp [cxSimB, cxSim, cxProductFin, cxProduct]

/-- C3 (amended): within an active tick (running and not paused), the source
executes the steps in the order production/transfer advance, then the WS1
scheduling check, then the WS2 completion check, then tryStartNext, after
advancing simulated time. -/
theorem C3_order (s : Sim) (dt : ℚ) (hr : s.running = true) (hp : s.paused = false) :
    s.update dt =
      tryStartWs2 (ws2CompletionStep (ws1SchedStep (prodTransferStep
        (advanceTime s dt)))) := by
  unfold Sim.update
  rw [if_neg]
  rintro (h | h)
  · exact h hr
  · rw [hp] at h
    exact Bool.noConfusion h

/-- Witness for C3 at a concrete started state. -/
theorem C3_order_witness :
    (initSim zeroStream 0).start.running = true ∧
    (initSim zeroStream 0).start.paused = false ∧
    (initSim zeroStream 0).start.update 1 =
      tryStartWs2 (ws2CompletionStep (ws1SchedStep (prodTransferStep
        (advanceTime ((initSim zeroStream 0).start) 1)))) :=
  ⟨rfl, rfl, C3_order ((initSim zeroStream 0).start) 1 rfl rfl⟩

theorem prodTransferStep_now (s : Sim) : (prodTransferStep s).now = s.now := rfl

theorem ws1SchedStep_now (s : Sim) : (ws1SchedStep s).now = s.now := by
  unfold ws1SchedStep
  split
  · split
    · rfl
    · split
      · rfl
      · rfl
  · rfl

theorem ws2CompletionStep_now (s : Sim) : (ws2CompletionStep s).now = s.now := by
  unfold ws2CompletionStep
  split
  · rfl
  · split
    · rfl
    · split
      · rfl
      · rfl

theorem tryStartWs2_now (s : Sim) : (tryStartWs2 s).now = s.now := by
  unfold tryStartWs2
  split
  · rfl
  · split
    · rfl
    · split
      · rfl
      · rfl

/-- C8 counterexample: `setSpeed 0` stores 0 — the stored multiplier is not
positive afterwards, so the core neither rejects nor clamps the value. -/
theorem C8_setSpeed_counterexample :
    ((initSim zeroStream 0).setSpeed 0).speed = 0 ∧
    ¬0 < ((initSim zeroStream 0).setSpeed 0).speed := by
  refine ⟨rfl, ?_⟩
  rw [show ((initSim zeroStream 0).setSpeed 0).speed = 0 from rfl]
  norm_num

/-- C8 (amended): the speed assignment stores any value unconditionally (the
source has no validation or clamping); consistently, after storing 0 no tick
ever advances simulated time, because the advance is `dt * speed = 0`. -/
theorem C8_setSpeed_stores (s : Sim) (v : ℚ) :
    (s.setSpeed v).speed = v ∧
    ∀ dt : ℚ, ((s.setSpeed 0).update dt).now = s.now := by
  refine ⟨rfl, ?_⟩
  intro dt
  unfold Sim.update
  split
  · rfl
  · rw [tryStartWs2_now, ws2CompletionStep_now, ws1SchedStep_now, prodTransferStep_now]
    show (s.setSpeed 0).now + dt * (s.setSpeed 0).speed = s.now
    show s.now + dt * 0 = s.now
    rw [mul_zero, add_zero]

theorem ws2CompletionStep_of_none (s : Sim) (h : s.ws2_current_id = none) :
    ws2CompletionStep s = s := by
  unfold ws2CompletionStep
  simp only [h]

theorem tryStartWs2_of_none_nil (s : Sim) (h1 : s.ws2_current_id = none)
    (h2 : s.queue_ws2 = []) : tryStartWs2 s = s := by
  unfold tryStartWs2
  simp only [h1, h2]

/-- C7 counterexample: with the all-zero entropy stream the single scheduled
item draws durations 65/5/5/30 (sum 105 < 10000), yet after reset, start, and
one tick of 10000 simulated minutes, zero items are `finished` — not exactly
one as claimed: arrival at WS2 depends on repeated easing ticks, which a
single large tick does not provide. -/
theorem C7_one_big_tick_counterexample :
    ((initSim zeroStream 0).products.map fun p =>
      (p.prod_time, p.setup_time, p.transfer_time, p.proc_time)) = [(65, 5, 5, 30)] ∧
    65 + 5 + 5 + 30 < 10000 ∧
    (((initSim zeroStream 0).start.update 10000).products.filter fun p =>
      p.state == PState.finished).length = 0 := by
  refine ⟨?_, by norm_num, ?_⟩
  · norm_num [initSim, freshSim, scheduleNextWs1_eq, newProduct, randInt, zeroStream,
      PROD_MIN, PROD_MAX, SETUP_MIN, SETUP_MAX, TRANSFER_MIN, TRANSFER_MAX,
      PROC_MIN, PROC_MAX]
  · norm_num [initSim, freshSim, scheduleNextWs1, Sim.rand, randInt, Sim.start,
      Sim.update, advanceTime, prodTransferStep, stepProduct, produceAdvance,
      transferAdvance, enqList, ws1SchedStep, ws2CompletionStep, tryStartWs2,
      findByPid, setFirst, leftProducing, finishProduct, startProcProduct, zeroStream,
      EPS, WS1_CENTER_X, WS1_CENTER_Y, WS2_CENTER_X, WS2_CENTER_Y,
      PROD_MIN, PROD_MAX, SETUP_MIN, SETUP_MAX, TRANSFER_MIN, TRANSFER_MAX,
      PROC_MIN, PROC_MAX]
    decide

/-- C7 (amended): for every entropy stream, after `reset` and `start` a single
tick of 10000 simulated minutes leaves the single created item in state
`transferring` (transfer arrival is driven by the per-tick easing animation,
not by elapsed simulated time), the finished-id list is empty — so no item
reaches `Finished` within that tick even though the drawn durations sum to
well below 10000 — and the assignment log has length at least 1. -/
theorem C7_one_big_tick (rng : Nat → Nat) (idx : Nat) :
    (((initSim rng idx).start.update 10000).products.map Product.state) =
      [PState.transferring] ∧
    ((initSim rng idx).start.update 10000).finished_ids = [] ∧
    1 ≤ ((initSim rng idx).start.update 10000).assigned_list.length := by
  have hpb : (newProduct (freshSim rng idx)).prod_time ≤ PROD_MAX :=
    randInt_le _ _ _ (by decide)
  have hpbq : ((newProduct (freshSim rng idx)).prod_time : ℚ) ≤ 85 := by
    have : ((newProduct (freshSim rng idx)).prod_time : ℚ) ≤ (PROD_MAX : ℚ) := by
      exact_mod_cast hpb
    simpa [PROD_MAX] using this
  have hnow : (advanceTime ((initSim rng idx).start) 10000).now = 10000 := by
    show (0 : ℚ) + 10000 * 1 = 10000
    norm_num
  have hpa : produceAdvance (advanceTime ((initSim rng idx).start) 10000).now
      (newProduct (freshSim rng idx)) =
      { newProduct (freshSim rng idx) with
          t_prod_done := some ((newProduct (freshSim rng idx)).t_prod_start.getD 0 +
            ((newProduct (freshSim rng idx)).prod_time : ℚ)),
          state := .produced } := by
    unfold produceAdvance
    rw [if_pos]
    refine ⟨rfl, ?_, rfl⟩
    rw [hnow]
    show (0 : ℚ) + ((newProduct (freshSim rng idx)).prod_time : ℚ) ≤ 10000
    linarith
  have hstep : stepProduct (advanceTime ((initSim rng idx).start) 10000).now
      (newProduct (freshSim rng idx)) =
      ({ newProduct (freshSim rng idx) with
          t_prod_done := some ((newProduct (freshSim rng idx)).t_prod_start.getD 0 +
            ((newProduct (freshSim rng idx)).prod_time : ℚ)),
          state := .transferring,
          target_x := some WS2_CENTER_X, target_y := some WS2_CENTER_Y }, false) := by
    unfold stepProduct
    rw [hpa]
    unfold transferAdvance
    rw [if_pos ⟨rfl, rfl⟩]
  have hptprod : (prodTransferStep (advanceTime ((initSim rng idx).start) 10000)).products =
      [(stepProduct (advanceTime ((initSim rng idx).start) 10000).now
        (newProduct (freshSim rng idx))).1] := rfl
  have hptqueue : (prodTransferStep (advanceTime ((initSim rng idx).start) 10000)).queue_ws2 =
      [] := by
    show [] ++ enqList (advanceTime ((initSim rng idx).start) 10000).now
      [newProduct (freshSim rng idx)] = []
    rw [List.nil_append]
    unfold enqList
    simp [hstep]
  have hsched : ws1SchedStep (prodTransferStep (advanceTime ((initSim rng idx).start) 10000)) =
      prodTransferStep (advanceTime ((initSim rng idx).start) 10000) := by
    apply ws1SchedStep_of_last_producing _
      ((stepProduct (advanceTime ((initSim rng idx).start) 10000).now
        (newProduct (freshSim rng idx))).1)
    · rw [hptprod, List.getLast?_singleton]
    · rw [hstep]
      rfl
  have hcomp : ws2CompletionStep (prodTransferStep (advanceTime ((initSim rng idx).start) 10000)) =
      prodTransferStep (advanceTime ((initSim rng idx).start) 10000) :=
    ws2CompletionStep_of_none _ rfl
  have htry : tryStartWs2 (prodTransferStep (advanceTime ((initSim rng idx).start) 10000)) =
      prodTransferStep (advanceTime ((initSim rng idx).start) 10000) :=
    tryStartWs2_of_none_nil _ rfl hptqueue
  have hupd : (initSim rng idx).start.update 10000 =
      prodTransferStep (advanceTime ((initSim rng idx).start) 10000) := by
    unfold Sim.update
    rw [if_neg (by simp [Sim.start]), hsched, hcomp, htry]
  refine ⟨?_, ?_, ?_⟩
  · rw [hupd, hptprod, hstep]
    rfl
  · rw [hupd]
    rfl
  · rw [hupd]
    exact le_refl 1

theorem advanceTime_finished (s : Sim) (dt : ℚ) :
    (advanceTime s dt).finished_ids = s.finished_ids := rfl

theorem advanceTime_current (s : Sim) (dt : ℚ) :
    (advanceTime s dt).ws2_current_id = s.ws2_current_id := rfl

theorem prodTransferStep_finished (s : Sim) :
    (prodTransferStep s).finished_ids = s.finished_ids := rfl

theorem prodTransferStep_current (s : Sim) :
    (prodTransferStep s).ws2_current_id = s.ws2_current_id := rfl

theorem ws1SchedStep_finished (s : Sim) :
    (ws1SchedStep s).finished_ids = s.finished_ids := by
  unfold ws1SchedStep
  split
  · split
    · rfl
    · split
      · rfl
      · rfl
  · rfl

theorem ws1SchedStep_current (s : Sim) :
    (ws1SchedStep s).ws2_current_id = s.ws2_current_id := by
  unfold ws1SchedStep
  split
  · split
    · rfl
    · split
      · rfl
      · rfl
  · rfl

theorem tryStartWs2_finished (s : Sim) :
    (tryStartWs2 s).finished_ids = s.finished_ids := by
  unfold tryStartWs2
  split
  · rfl
  · split
    · rfl
    · split
      · rfl
      · rfl

theorem ws2CompletionStep_finished (s : Sim) :
    (ws2CompletionStep s).finished_ids = s.finished_ids ∨
      ∃ cid, s.ws2_current_id = some cid ∧
        (ws2CompletionStep s).finished_ids = s.finished_ids ++ [cid] := by
  unfold ws2CompletionStep
  split
  · exact Or.inl rfl
  · next cid hcur =>
      split
      · exact Or.inl rfl
      · split
        · exact Or.inr ⟨cid, hcur, rfl⟩
        · exact Or.inl rfl

/-- During one tick the finished-id list is either unchanged or extended by
exactly the id stored in `ws2_current_id` before the tick. -/
theorem update_finished_decomp (s : Sim) (dt : ℚ) :
    (s.update dt).finished_ids = s.finished_ids ∨
      ∃ cid, s.ws2_current_id = some cid ∧
        (s.update dt).finished_ids = s.finished_ids ++ [cid] := by
  unfold Sim.update
  split
  · exact Or.inl rfl
  · have h3cur : (ws1SchedStep (prodTransferStep (advanceTime s dt))).ws2_current_id =
        s.ws2_current_id := by
      rw [ws1SchedStep_current, prodTransferStep_current, advanceTime_current]
    have h3fin : (ws1SchedStep (prodTransferStep (advanceTime s dt))).finished_ids =
        s.finished_ids := by
      rw [ws1SchedStep_finished, prodTransferStep_finished, advanceTime_finished]
    rcases ws2CompletionStep_finished (ws1SchedStep (prodTransferStep (advanceTime s dt)))
      with hc | ⟨cid, hcid, hc⟩
    · left
      rw [tryStartWs2_finished, hc, h3fin]
    · right
      refine ⟨cid, ?_, ?_⟩
      · rw [← h3cur]
        exact hcid
      · rw [tryStartWs2_finished, hc, h3fin]

/-- C5 (amended): from every reachable state, the finished-id list has no
duplicates; every tick appends zero or one id — the pre-tick list is always a
prefix of the post-tick list, so the length is non-decreasing (not strictly
increasing) — and an id newly appended by a tick belongs to a product that was
in state `processing_ws2` before that tick. -/
theorem C5_finished_ids (s : Sim) (h : Reachable s) :
    s.finished_ids.Nodup ∧
    (∀ dt : ℚ, ∃ t, (s.update dt).finished_ids = s.finished_ids ++ t) ∧
    (∀ dt : ℚ, ∀ pid, pid ∈ (s.update dt).finished_ids → pid ∉ s.finished_ids →
      ∃ p ∈ s.products, p.pid = pid ∧ p.state = .processing_ws2) := by
  have hInv := reachable_inv s h
  refine ⟨hInv.finNodup, ?_, ?_⟩
  · intro dt
    rcases update_finished_decomp s dt with hc | ⟨cid, _, hc⟩
    · exact ⟨[], by rw [hc, List.append_nil]⟩
    · exact ⟨[cid], hc⟩
  · intro dt pid hmem hnot
    rcases update_finished_decomp s dt with hc | ⟨cid, hcid, hc⟩
    · rw [hc] at hmem
      exact absurd hmem hnot
    · rw [hc] at hmem
      rcases List.mem_append.1 hmem with hmem | hmem
      · exact absurd hmem hnot
      · have hpidcid : pid = cid := by simpa using hmem
        rcases hInv.currentMem cid hcid with ⟨p, hp, hppid⟩
        refine ⟨p, hp, by rw [hppid, hpidcid], ?_⟩
        exact (hInv.procIff p hp).2 (by rw [hcid, hppid])

/-- C5 counterexample: a tick on a reachable, running state after which the
finished-id list has exactly the same length as before (nothing completed in
that tick), refuting "strictly increasing in length over time". -/
theorem C5_counterexample :
    Reachable ((initSim zeroStream 0).start) ∧
    ((initSim zeroStream 0).start.update 1).finished_ids.length =
      ((initSim zeroStream 0).start).finished_ids.length := by
  refine ⟨Reachable.start _ (Reachable.init zeroStream 0), ?_⟩
  rcases update_finished_decomp ((initSim zeroStream 0).start) 1 with hc | ⟨cid, hcid, _⟩
  · rw [hc]
  · rw [show ((initSim zeroStream 0).start).ws2_current_id = none from rfl] at hcid
    exact Option.noConfusion hcid

/-- Witness for C5 at the started fresh state, tick of one minute. -/
theorem C5_finished_ids_witness :
    Reachable ((initSim zeroStream 0).start) ∧
    ((initSim zeroStream 0).start).finished_ids.Nodup :=
  ⟨Reachable.start _ (Reachable.init zeroStream 0),
    (C5_finished_ids _ (Reachable.start _ (Reachable.init zeroStream 0))).1⟩

/-- C9: in every reachable state every id in the WS2 queue and the
current-processing id refer to a product present in the collection, and at
both in-tick call sites — the completion check (after the production/transfer
advance and the scheduling check) and `_try_start_ws2` (after the completion
check) — the `next(...)` linear scan finds its product, so the Python
`StopIteration` branch is unreachable. -/
theorem C9_lookups (s : Sim) (h : Reachable s) :
    (∀ pid ∈ s.queue_ws2, (findByPid s.products pid).isSome) ∧
    (∀ cid, s.ws2_current_id = some cid → (findByPid s.products cid).isSome) ∧
    (∀ dt : ℚ, ∀ cid,
      (ws1SchedStep (prodTransferStep (advanceTime s dt))).ws2_current_id = some cid →
      (findByPid (ws1SchedStep (prodTransferStep (advanceTime s dt))).products
        cid).isSome) ∧
    (∀ dt : ℚ, ∀ pid rest,
      (ws2CompletionStep (ws1SchedStep (prodTransferStep (advanceTime s dt)))).queue_ws2 =
        pid :: rest →
      (findByPid (ws2CompletionStep (ws1SchedStep (prodTransferStep
        (advanceTime s dt)))).products pid).isSome) := by
  have hInv := reachable_inv s h
  have mkq : ∀ t : Sim, Inv t → ∀ pid ∈ t.queue_ws2, (findByPid t.products pid).isSome := by
    intro t ht pid hpid
    rcases ht.queueMem pid hpid with ⟨p, hp, hppid, _⟩
    exact findByPid_isSome _ _ p hp hppid
  have mkc : ∀ t : Sim, Inv t → ∀ cid, t.ws2_current_id = some cid →
      (findByPid t.products cid).isSome := by
    intro t ht cid hcid
    rcases ht.currentMem cid hcid with ⟨p, hp, hppid⟩
    exact findByPid_isSome _ _ p hp hppid
  refine ⟨mkq s hInv, mkc s hInv, ?_, ?_⟩
  · intro dt
    exact mkc _ (inv_ws1Sched _ (inv_prodTransfer _ (inv_advance s dt hInv)))
  · intro dt pid rest hq
    have hInv4 := inv_completion _ (inv_ws1Sched _ (inv_prodTransfer _
      (inv_advance s dt hInv)))
    exact mkq _ hInv4 pid (by rw [hq]; exact List.mem_cons_self _ _)

/-- Witness for C9 at the fresh state. -/
theorem C9_lookups_witness :
    Reachable (initSim zeroStream 0) ∧
    (∀ pid ∈ (initSim zeroStream 0).queue_ws2,
      (findByPid (initSim zeroStream 0).products pid).isSome) ∧
    (∀ cid, (initSim zeroStream 0).ws2_current_id = some cid →
      (findByPid (initSim zeroStream 0).products cid).isSome) :=
  ⟨Reachable.init zeroStream 0,
    (C9_lookups _ (Reachable.init zeroStream 0)).1,
    (C9_lookups _ (Reachable.init zeroStream 0)).2.1⟩

theorem ws1SchedStep_queue (s : Sim) : (ws1SchedStep s).queue_ws2 = s.queue_ws2 := by
  unfold ws1SchedStep
  split
  · split
    · rfl
    · split
      · rfl
      · rfl
  · rfl

theorem ws2CompletionStep_queue (s : Sim) :
    (ws2CompletionStep s).queue_ws2 = s.queue_ws2 := by
  unfold ws2CompletionStep
  split
  · rfl
  · split
    · rfl
    · split
      · rfl
      · rfl

theorem tryStartWs2_queue_decomp (s : Sim) :
    (match s.ws2_current_id, s.queue_ws2 with
      | none, pid :: _ => [pid]
      | _, _ => ([] : List Nat)) ++ (tryStartWs2 s).queue_ws2 = s.queue_ws2 := by
  unfold tryStartWs2
  cases hcur : s.ws2_current_id with
  | some c => simp [hcur]
  | none =>
      cases hqu : s.queue_ws2 with
      | nil => simp [hcur, hqu]
      | cons pid rest =>
          cases hfind : findByPid s.products pid with
          | none => simp [hcur, hqu, hfind]
          | some p => simp [hcur, hqu, hfind]

/-- During one tick, the popped ids followed by the post-tick queue equal the
pre-tick queue followed by the appended ids: pops take the head, appends go
at the tail. -/
theorem tick_queue_decomp (s : Sim) (dt : ℚ) :
    tickDequeues s dt ++ (s.update dt).queue_ws2 = s.queue_ws2 ++ tickEnqueues s dt := by
  unfold Sim.update tickDequeues tickEnqueues
  split
  · simp
  · have hq4 : (ws2CompletionStep (ws1SchedStep (prodTransferStep
        (advanceTime s dt)))).queue_ws2 =
        s.queue_ws2 ++ enqList (advanceTime s dt).now (advanceTime s dt).products := by
      rw [ws2CompletionStep_queue, ws1SchedStep_queue]
      rfl
    have h := tryStartWs2_queue_decomp
      (ws2CompletionStep (ws1SchedStep (prodTransferStep (advanceTime s dt))))
    rw [h]
    exact hq4

theorem op_queue_decomp (s : Sim) (o : Op) (ho : o ≠ Op.reset) :
    opDequeues s o ++ (applyOp s o).queue_ws2 = s.queue_ws2 ++ opEnqueues s o := by
  cases o with
  | tick dt => exact tick_queue_decomp s dt
  | start => simp [opDequeues, opEnqueues, applyOp, Sim.start]
  | pause => simp [opDequeues, opEnqueues, applyOp, Sim.pause]
  | resume => simp [opDequeues, opEnqueues, applyOp, Sim.resume]
  | reset => exact absurd rfl ho
  | setSpeed v => simp [opDequeues, opEnqueues, applyOp, Sim.setSpeed]

theorem runOps_queue_decomp (s : Sim) (ops : List Op) (h : ∀ o ∈ ops, o ≠ Op.reset) :
    runDequeues s ops ++ (runOps s ops).queue_ws2 = s.queue_ws2 ++ runEnqueues s ops := by
  induction ops generalizing s with
  | nil => simp [runDequeues, runEnqueues, runOps]
  | cons o os ih =>
      have h1 := op_queue_decomp s o (h o (List.mem_cons_self _ _))
      have h2 := ih (applyOp s o) fun o' ho' => h o' (List.mem_cons_of_mem _ ho')
      show (opDequeues s o ++ runDequeues (applyOp s o) os) ++
          (runOps (applyOp s o) os).queue_ws2 =
        s.queue_ws2 ++ (opEnqueues s o ++ runEnqueues (applyOp s o) os)
      rw [List.append_assoc, h2, ← List.append_assoc, h1, List.append_assoc]

/-- C4: over every reset-free run from a fresh state, the sequence of ids
appended to the WS2 queue at transfer arrival equals the sequence of ids
popped by `_try_start_ws2` followed by the ids still queued — the dequeue
sequence is a prefix of the enqueue sequence, so items leave the queue in
exactly arrival order. -/
theorem C4_fifo (rng : Nat → Nat) (idx : Nat) (ops : List Op)
    (h : ∀ o ∈ ops, o ≠ Op.reset) :
    runEnqueues (initSim rng idx) ops =
      runDequeues (initSim rng idx) ops ++ (runOps (initSim rng idx) ops).queue_ws2 := by
  have hd := runOps_queue_decomp (initSim rng idx) ops h
  rw [show (initSim rng idx).queue_ws2 = [] from rfl, List.nil_append] at hd
  exact hd.symm

/-- Witness for C4 on a concrete two-operation run. -/
theorem C4_fifo_witness :
    (∀ o ∈ [Op.start, Op.tick 200], o ≠ Op.reset) ∧
    runEnqueues (initSim zeroStream 0) [Op.start, Op.tick 200] =
      runDequeues (initSim zeroStream 0) [Op.start, Op.tick 200] ++
        (runOps (initSim zeroStream 0) [Op.start, Op.tick 200]).queue_ws2 :=
  ⟨by decide, C4_fifo zeroStream 0 [Op.start, Op.tick 200] (by decide)⟩

end TwoWorkshop

